import Mathlib

/-!
# Verification of the Grafana encrypted secret value store

A shallow embedding of the `secureStore` subsystem (row codec, CRUD and
decrypt operations) together with proofs about its behaviour.

The Go sources embed maps and string lists as JSON text in the persisted
row.  We model Go's `encoding/json` for `map[string]string` and `[]string`
with an executable encoder (keys sorted, quotes and backslashes escaped)
and an executable recursive-descent decoder.
-/

namespace GrafanaSecret

/-! ## Model of the JSON text layer (Go `encoding/json` on string maps/lists) -/

/-- Lexicographic order on character lists by code point (the order Go's
`json.Marshal` sorts map keys in, restricted to ASCII keys). -/
def charListLeB : List Char → List Char → Bool
  | [], _ => true
  | _ :: _, [] => false
  | a :: as, b :: bs =>
    if a.toNat < b.toNat then true
    else if b.toNat < a.toNat then false
    else charListLeB as bs

/-- String order used for map-key sorting. -/
def strLeB (a b : String) : Bool := charListLeB a.data b.data

/-- One character list is an initial segment of another. -/
def listIsPfx : List Char → List Char → Bool
  | [], _ => true
  | _ :: _, [] => false
  | a :: as, b :: bs => a == b && listIsPfx as bs

/-- Go's `strings.HasPrefix s pre`: `s` begins with `pre`. -/
def goHasPrefix (s pre : String) : Bool := listIsPfx pre.data s.data

/-- Insert a pair into a list sorted by key (Go's `json.Marshal` emits map
keys in sorted order). -/
def insertByKey (p : String × String) : List (String × String) → List (String × String)
  | [] => [p]
  | q :: rest => if strLeB p.1 q.1 then p :: q :: rest else q :: insertByKey p rest

/-- Sort map entries by key, as Go's `json.Marshal` does for maps. -/
def sortByKey : List (String × String) → List (String × String)
  | [] => []
  | p :: rest => insertByKey p (sortByKey rest)

/-- Escape the characters of a JSON string body: quote and backslash. -/
def escChars : List Char → List Char
  | [] => []
  | c :: cs => if c = '"' ∨ c = '\\' then '\\' :: c :: escChars cs else c :: escChars cs

/-- A JSON string literal: opening quote, escaped body, closing quote. -/
def encStrChars (s : String) : List Char :=
  '"' :: (escChars s.data ++ ['"'])

/-- A JSON object member: `"key":"value"`. -/
def encPairChars (p : String × String) : List Char :=
  encStrChars p.1 ++ ':' :: encStrChars p.2

/-- The members of an object after the first, each preceded by a comma. -/
def bodyTailChars : List (String × String) → List Char
  | [] => []
  | p :: ps => ',' :: encPairChars p ++ bodyTailChars ps

/-- A whole JSON object over a list of members. -/
def encPairsChars : List (String × String) → List Char
  | [] => ['{', '}']
  | p :: ps => '{' :: (encPairChars p ++ bodyTailChars ps) ++ ['}']

/-- Go `json.Marshal` on a `map[string]string`: object text with sorted keys. -/
def goJsonEncodePairs (m : List (String × String)) : String :=
  String.mk (encPairsChars (sortByKey m))

/-- The elements of an array after the first, each preceded by a comma. -/
def bodyTailStrs : List String → List Char
  | [] => []
  | s :: ss => ',' :: encStrChars s ++ bodyTailStrs ss

/-- A whole JSON array of strings, in element order. -/
def encArrChars : List String → List Char
  | [] => ['[', ']']
  | s :: ss => '[' :: (encStrChars s ++ bodyTailStrs ss) ++ [']']

/-- Go `json.Marshal` on a `[]string`: array text in slice order. -/
def goJsonEncodeStrList (l : List String) : String :=
  String.mk (encArrChars l)

/-- Parse a JSON string body (the opening quote already consumed), returning
the unescaped characters and the remaining input. -/
def parseStrChars : List Char → Option (List Char × List Char)
  | [] => none
  | c :: rest =>
    if c = '"' then some ([], rest)
    else if c = '\\' then
      match rest with
      | [] => none
      | e :: rest2 =>
        match parseStrChars rest2 with
        | some (s, r) => some (e :: s, r)
        | none => none
    else
      match parseStrChars rest with
      | some (s, r) => some (c :: s, r)
      | none => none

/-- Parse one `"key":"value"` object member. -/
def parsePairChars (l : List Char) : Option ((String × String) × List Char) :=
  match l with
  | '"' :: r0 =>
    match parseStrChars r0 with
    | some (k, r1) =>
      match r1 with
      | ':' :: '"' :: r2 =>
        match parseStrChars r2 with
        | some (v, r3) => some ((String.mk k, String.mk v), r3)
        | none => none
      | _ => none
    | none => none
  | _ => none

/-- Parse the members of an object after the first: a `}` terminator or a
comma followed by a member.  `fuel` bounds the number of members. -/
def parsePairsTailChars : Nat → List Char → Option (List (String × String) × List Char)
  | 0, _ => none
  | _ + 1, [] => none
  | fuel + 1, c :: rest =>
    if c = '}' then some ([], rest)
    else if c = ',' then
      match parsePairChars rest with
      | some (p, r) =>
        match parsePairsTailChars fuel r with
        | some (ps, r2) => some (p :: ps, r2)
        | none => none
      | none => none
    else none

/-- Parse a whole JSON object. -/
def parseObjChars (fuel : Nat) (l : List Char) : Option (List (String × String) × List Char) :=
  match l with
  | '{' :: rest =>
    match rest with
    | '}' :: r2 => some ([], r2)
    | _ =>
      match parsePairChars rest with
      | some (p, r) =>
        match parsePairsTailChars fuel r with
        | some (ps, r2) => some (p :: ps, r2)
        | none => none
      | none => none
  | _ => none

/-- Go `json.Unmarshal` of an object into a `map[string]string`: the whole
input must be consumed. -/
def goJsonDecodePairs (s : String) : Option (List (String × String)) :=
  match parseObjChars s.length s.data with
  | some (ps, []) => some ps
  | _ => none

/-- Parse the elements of an array after the first: a `]` terminator or a
comma followed by a string. -/
def parseArrTailChars : Nat → List Char → Option (List String × List Char)
  | 0, _ => none
  | _ + 1, [] => none
  | fuel + 1, c :: rest =>
    if c = ']' then some ([], rest)
    else if c = ',' then
      match rest with
      | '"' :: r0 =>
        match parseStrChars r0 with
        | some (s, r) =>
          match parseArrTailChars fuel r with
          | some (ss, r2) => some (String.mk s :: ss, r2)
          | none => none
        | none => none
      | _ => none
    else none

/-- Parse a whole JSON array of strings. -/
def parseArrChars (fuel : Nat) (l : List Char) : Option (List String × List Char) :=
  match l with
  | '[' :: rest =>
    match rest with
    | ']' :: r2 => some ([], r2)
    | '"' :: r0 =>
      match parseStrChars r0 with
      | some (s, r) =>
        match parseArrTailChars fuel r with
        | some (ss, r2) => some (String.mk s :: ss, r2)
        | none => none
      | none => none
    | _ => none
  | _ => none

/-- Go `json.Unmarshal` of an array into a `[]string`. -/
def goJsonDecodeStrList (s : String) : Option (List String) :=
  match parseArrChars s.length s.data with
  | some (ss, []) => some ss
  | _ => none

/-! ## Data model -/

/-- The error classes produced by the store (the Go code builds them with
`fmt.Errorf`; the constructors record which error site fired).
Per the spec's taxonomy, `missingAuth` is the `Unauthenticated` class,
`missingName` and `missingValue` are `InvalidArgument`, `notFound` is
`NotFound`, `jsonErr` is an `Internal` deserialization failure, and `other`
carries storage/keeper failure text. -/
inductive GoErr where
  | missingAuth
  | missingName
  | missingValue
  | notFound
  | jsonErr : String → GoErr
  | other : String → GoErr
deriving DecidableEq

/-- Equality of fallible results is decidable, so concrete runs of the
store can be checked by evaluation. -/
instance instDecEqExcept {ε α : Type} [DecidableEq ε] [DecidableEq α] :
    DecidableEq (Except ε α) := fun x y =>
  match x, y with
  | .ok a, .ok b =>
    if h : a = b then isTrue (by rw [h]) else isFalse (by simp [h])
  | .error a, .error b =>
    if h : a = b then isTrue (by rw [h]) else isFalse (by simp [h])
  | .ok _, .error _ => isFalse (by simp)
  | .error _, .ok _ => isFalse (by simp)

/-- An operation outcome that can also be a Go `panic` (used for the
unimplemented methods of the sampled store). -/
inductive GoOutcome (α : Type) where
  | ok : α → GoOutcome α
  | err : GoErr → GoOutcome α
  | panicked : String → GoOutcome α
deriving DecidableEq

/-- The authenticated identity carried by the request context
(`claims.From(ctx)` / `authInfo.GetUID()`). -/
structure AuthInfo where
  uid : String
deriving DecidableEq

/-- The request context: an optional authenticated identity
(`claims.From` reports presence with its second return value). -/
structure Ctx where
  auth : Option AuthInfo
deriving DecidableEq

/-- Modelled from the spec: the object-metadata convention
(`utils.MetaAccessor`, not part of the sampled sources).  Per §4.2, system
metadata — created-by, updated-by, update timestamp, resource version —
travels through a side channel of the object metadata, modelled here as
dedicated optional fields; `none` means the field is not set on the
object.  Timestamps are millisecond Unix times. -/
structure ObjectMeta where
  name : String := ""
  nspace : String := ""
  uid : String := ""
  creationTs : Int := 0
  labels : List (String × String) := []
  annots : List (String × String) := []
  createdBy : Option String := none
  updatedBy : Option String := none
  updatedTs : Option Int := none
  resourceVersion : Option Int := none
deriving DecidableEq

/-- `secret.SecureValueSpec`: title, write-only plaintext value, and the
authorized-APIs list. -/
structure SecureValueSpec where
  title : String := ""
  value : String := ""
  apis : List String := []
deriving DecidableEq

/-- `secret.SecureValue`: object metadata plus spec. -/
structure SecureValue where
  meta : ObjectMeta := {}
  spec : SecureValueSpec := {}
deriving DecidableEq

/-- The persisted row (`secureValueRow`): scalars plus JSON-encoded
collections, exactly the Go struct's fields. -/
structure secureValueRow where
  UID : String := ""
  Namespace : String := ""
  Name : String := ""
  Title : String := ""
  Salt : String := ""
  Value : String := ""
  Keeper : String := ""
  Addr : String := ""
  Created : Int := 0
  CreatedBy : String := ""
  Updated : Int := 0
  UpdatedBy : String := ""
  Annots : String := ""
  Labels : String := ""
  APIs : String := ""
deriving DecidableEq

/-- `SaltyValue`: the argument bundle passed to the keeper. -/
structure SaltyValue where
  value : String := ""
  salt : String := ""
  keeper : String := ""
  addr : String := ""
deriving DecidableEq

/-- Modelled from the spec: the `SecretKeeper` interface (§4.1); its
implementations are not among the sampled sources.  `encode` turns a
plaintext and salt into an opaque string, `decode` recovers the plaintext
from the encoded string, salt, keeper id and address; either may fail. -/
structure SecretKeeper where
  encode : Ctx → SaltyValue → Except GoErr String
  decode : Ctx → SaltyValue → Except GoErr String

/-- Modelled from the spec: the relational backend behind the SQL templates
(`secure_value_insert.sql`, `secure_value_list.sql` are not among the
sampled sources).  The table is the list of rows in storage (insertion)
order; insert appends, the list query returns the rows of a namespace in
that order, and the lookup query returns the first row matching a
namespace and name. -/
abbrev StoreState := List secureValueRow

/-- The non-deterministic inputs consumed by `Create`: the generated UUID
(`uuid.NewString`), the current time in milliseconds (`time.Now`), and the
result of salt generation (`util.GetRandomString(10)`, which can fail). -/
structure CreateEnv where
  newUID : String
  now : Int
  randSalt : Except GoErr String

/-- `internalversion.ListOptions`: only the label selector is consumed by
the store.  A selector is its `Matches` predicate on a decoded label map;
`none` models a nil selector. -/
structure ListOptions where
  labelSelector : Option (List (String × String) → Bool) := none

/-- `labels.Everything()`: the selector that matches every label set. -/
def matchEverything : List (String × String) → Bool := fun _ => true

/-! ## Row codec -/

/-- `toSecureValueRow`: build the persisted row from a `SecureValue`.
A fresh UUID becomes the row UID; labels, authorized APIs and annotations
are JSON-encoded only when non-empty; the annotation filter is the exact
source condition `!strings.HasPrefix("grafana.app/", k)`, i.e. it drops a
key `k` exactly when the reserved prefix string *starts with `k`*.
(`json.Marshal` cannot fail on these string maps, so the Go error returns
are dead branches and the result is the row itself.) -/
def toSecureValueRow (newUID : String) (v : SecureValue) : secureValueRow :=
  let row : secureValueRow :=
    { UID := newUID
      Namespace := v.meta.nspace
      Name := v.meta.name
      Title := v.spec.title
      Value := v.spec.value
      Created := v.meta.creationTs
      CreatedBy := v.meta.createdBy.getD ""
      UpdatedBy := v.meta.updatedBy.getD ""
      Updated := v.meta.updatedTs.getD v.meta.creationTs }
  let row := if v.meta.labels.isEmpty then row
    else { row with Labels := goJsonEncodePairs v.meta.labels }
  let row := if v.spec.apis.isEmpty then row
    else { row with APIs := goJsonEncodeStrList v.spec.apis }
  if v.meta.annots.isEmpty then row
  else { row with Annots :=
    goJsonEncodePairs (v.meta.annots.filter (fun kv => !goHasPrefix "grafana.app/" kv.1)) }

/-- Decode one JSON map column: the empty string stays an empty map
(the Go code skips `Unmarshal` for `""`), otherwise parse or fail. -/
def decPairsField (blob : String) : Except GoErr (List (String × String)) :=
  if blob = "" then .ok []
  else
    match goJsonDecodePairs blob with
    | some m => .ok m
    | none => .error (.jsonErr blob)

/-- Decode the JSON string-list column, in the same way. -/
def decListField (blob : String) : Except GoErr (List String) :=
  if blob = "" then .ok []
  else
    match goJsonDecodeStrList blob with
    | some l => .ok l
    | none => .error (.jsonErr blob)

/-- `secureValueRow.toK8s`: decode a persisted row back to the wire object.
The JSON columns are decoded in the source's order (APIs, then
annotations, then labels); created-by is always set from the row;
updated-by and the update timestamp are set only when the row's update
time differs from its creation time; the resource version is always the
update time in milliseconds.  The plaintext/encoded value column is never
copied to the object. -/
def secureValueRow.toK8s (r : secureValueRow) : Except GoErr SecureValue := do
  let apis ← decListField r.APIs
  let annots ← decPairsField r.Annots
  let labels ← decPairsField r.Labels
  .ok
    { meta :=
        { name := r.Name
          nspace := r.Namespace
          uid := r.UID
          creationTs := r.Created
          labels := labels
          annots := annots
          createdBy := some r.CreatedBy
          updatedBy := if r.Updated ≠ r.Created then some r.UpdatedBy else none
          updatedTs := if r.Updated ≠ r.Created then some r.Updated else none
          resourceVersion := some r.Updated }
      spec := { title := r.Title, value := "", apis := apis } }

/-! ## The secure value store -/

/-- `secureStore`: the store's only behavioural dependency in this model is
the keeper (the DB handle and SQL dialect are replaced by the explicit
`StoreState`). -/
structure secureStore where
  keeper : SecretKeeper

/-- `secureStore.get`: the row lookup shared by Read and Decrypt.  Modelled
from the spec for the SQL part: the list query filtered by namespace and
name returns the first matching row in storage order; no row gives the
`"not found"` error. -/
def secureStore.get (st : StoreState) (ns name : String) : Except GoErr secureValueRow :=
  match st.find? (fun r => r.Namespace == ns && r.Name == name) with
  | some r => .ok r
  | none => .error .notFound

/-- `secureStore.Read`: look up the row and decode it. -/
def secureStore.Read (st : StoreState) (ns name : String) : Except GoErr SecureValue := do
  let r ← secureStore.get st ns name
  r.toK8s

/-- The body of `Create` after its validation checks: stamp the creation
time on the caller's object, build the row, overwrite created-by and
updated-by from the authenticated identity, generate the salt, encode the
plaintext through the keeper, insert the row, and return the decoded row.
The result triple is (returned value or error, store state after the call,
final state of the caller's argument object — `Create` mutates it through
the pointer). -/
def secureStore.createBody (s : secureStore) (env : CreateEnv) (ctx : Ctx)
    (authInfo : AuthInfo) (st : StoreState) (v : SecureValue) :
    Except GoErr SecureValue × StoreState × SecureValue :=
  let v := { v with meta := { v.meta with creationTs := env.now } }
  let row := toSecureValueRow env.newUID v
  let row := { row with CreatedBy := authInfo.uid, UpdatedBy := authInfo.uid }
  match env.randSalt with
  | .error e => (.error e, st, v)
  | .ok salt =>
    let row := { row with Salt := salt }
    match s.keeper.encode ctx { value := v.spec.value, salt := row.Salt } with
    | .error e => (.error e, st, v)
    | .ok encoded =>
      let row := { row with Value := encoded }
      (row.toK8s, st ++ [row], v)

/-- `secureStore.Create`: require an authenticated identity, a non-empty
name and a non-empty plaintext value, then run the body. -/
def secureStore.Create (s : secureStore) (env : CreateEnv) (ctx : Ctx)
    (st : StoreState) (v : SecureValue) :
    Except GoErr SecureValue × StoreState × SecureValue :=
  match ctx.auth with
  | none => (.error .missingAuth, st, v)
  | some authInfo =>
    if v.meta.name = "" then (.error .missingName, st, v)
    else if v.spec.value = "" then (.error .missingValue, st, v)
    else secureStore.createBody s env ctx authInfo st v

/-- `secureStore.Delete` is unimplemented in the sampled source: it panics
unconditionally and the store state is untouched. -/
def secureStore.Delete (st : StoreState) (ns name : String) :
    GoOutcome (SecureValue × Bool) × StoreState :=
  (.panicked "unimplemented", st)

/-- `secureStore.Decrypt`: look up the row, decode it, and recover the
plaintext through the keeper with the stored value, salt, keeper id and
address.  The source only *logs* the row's authorized-APIs list at this
point (a `TODO` in the code); no membership check on the calling identity
is performed. -/
def secureStore.Decrypt (s : secureStore) (ctx : Ctx) (st : StoreState)
    (ns name : String) : Except GoErr SecureValue := do
  let row ← secureStore.get st ns name
  let v ← row.toK8s
  let plain ← s.keeper.decode ctx
    { value := row.Value, salt := row.Salt, keeper := row.Keeper, addr := row.Addr }
  .ok { v with spec := { v.spec with value := plain } }

/-- The rows returned by the list query for a namespace: modelled from the
spec, all rows of the namespace in storage order. -/
def rowsForNamespace (st : StoreState) (ns : String) : List secureValueRow :=
  st.filter (fun r => r.Namespace == ns)

/-- The scan loop of `List`: decode each row in order, keep the objects
whose decoded labels match the selector, fail on the first decode error. -/
def secureStore.listLoop (sel : List (String × String) → Bool) :
    List secureValueRow → Except GoErr (List SecureValue)
  | [] => .ok []
  | r :: rest => do
    let obj ← r.toK8s
    let tail ← secureStore.listLoop sel rest
    .ok (if sel obj.meta.labels then obj :: tail else tail)

/-- Declarative reading of the scan: decode all rows in order, failing on
the first decode error.  Used as the specification side of the `List`
refinement theorem. -/
def decodeRows : List secureValueRow → Except GoErr (List SecureValue)
  | [] => .ok []
  | r :: rest => do
    let o ← r.toK8s
    let os ← decodeRows rest
    .ok (o :: os)

/-- `secureStore.List`: a nil selector is replaced by `labels.Everything()`,
then the namespace's rows are scanned. -/
def secureStore.List (st : StoreState) (ns : String) (options : ListOptions) :
    Except GoErr (List SecureValue) :=
  let sel := options.labelSelector.getD matchEverything
  secureStore.listLoop sel (rowsForNamespace st ns)

/-- The `Create` of the second sampled store variant (the one building the
row inline): same authentication check, but no name/value validation — an
empty name is replaced by a generated short UID; created and updated times
are both the current time; the salt is a generated short UID; labels, APIs
and annotations are JSON-encoded without any key filtering.  The
environment reuses `newUID` for the UUID, `now` for the time; `saltUID`
and `nameUID` are the two `util.GenerateShortUID()` results. -/
structure CreateEnvV2 where
  newUID : String
  now : Int
  saltUID : String
  nameUID : String

/-- The second variant's `Create` (the caller's object is not mutated). -/
def secureStoreV2Create (s : secureStore) (env : CreateEnvV2) (ctx : Ctx)
    (st : StoreState) (v : SecureValue) :
    Except GoErr SecureValue × StoreState :=
  match ctx.auth with
  | none => (.error .missingAuth, st)
  | some authInfo =>
    let row : secureValueRow :=
      { UID := env.newUID
        Namespace := v.meta.nspace
        Name := v.meta.name
        Title := v.spec.title
        Salt := env.saltUID
        Value := v.spec.value
        Created := env.now
        Updated := env.now
        CreatedBy := authInfo.uid
        UpdatedBy := authInfo.uid }
    let row := if row.Name = "" then { row with Name := env.nameUID } else row
    let row := if v.meta.labels.isEmpty then row
      else { row with Labels := goJsonEncodePairs v.meta.labels }
    let row := if v.spec.apis.isEmpty then row
      else { row with APIs := goJsonEncodeStrList v.spec.apis }
    let row := if v.meta.annots.isEmpty then row
      else { row with Annots := goJsonEncodePairs v.meta.annots }
    (row.toK8s, st ++ [row])

/-- The row inserted by a successful `Create`: the codec row of the
timestamped object, with created-by/updated-by overwritten from the
authenticated identity and the generated salt and keeper-encoded value
filled in. -/
def createdRow (env : CreateEnv) (a : AuthInfo) (salt ct : String)
    (v : SecureValue) : secureValueRow :=
  { toSecureValueRow env.newUID { v with meta := { v.meta with creationTs := env.now } }
      with CreatedBy := a.uid, UpdatedBy := a.uid, Salt := salt, Value := ct }

/-! ## Concrete fixtures for evaluating the model -/

/-- A concrete keeper: prepends the salt and a separator to the plaintext,
and strips them again on decode. -/
def testKeeper : SecretKeeper :=
  { encode := fun _ sv => .ok (sv.salt ++ "|" ++ sv.value)
    decode := fun _ sv => .ok (String.mk (sv.value.data.drop (sv.salt.data.length + 1))) }

/-- An input object carrying one reserved-prefix annotation key and one
ordinary single-letter annotation key. -/
def c1Input : SecureValue :=
  { meta := { name := "n", nspace := "ns",
              annots := [("g", "x"), ("grafana.app/token", "y")] } }

/-- A stored row whose authorized-APIs column names only `appA`. -/
def c2Row : secureValueRow :=
  { Namespace := "ns", Name := "n", Salt := "r", Value := "r|top-secret",
    APIs := goJsonEncodeStrList ["appA"] }

/-- A request context authenticated as `appB`. -/
def ctxB : Ctx := { auth := some { uid := "appB" } }

/-- A request context authenticated as `appA`. -/
def ctxA : Ctx := { auth := some { uid := "appA" } }

/-- A concrete creation input with labels, title, value and one authorized
API. -/
def c3Value : SecureValue :=
  { meta := { name := "db-pass", nspace := "ns", labels := [("team", "a")] }
    spec := { title := "the database password", value := "s3cr3t", apis := ["appA"] } }

/-- A concrete environment whose salt generation succeeds. -/
def envOk : CreateEnv := { newUID := "uid-1", now := 5, randSalt := .ok "r" }

/-- A concrete environment whose salt generation fails. -/
def envBadSalt : CreateEnv :=
  { newUID := "uid-1", now := 5, randSalt := .error (.other "rng failure") }

/-- A row whose update time differs from its creation time. -/
def c5Row : secureValueRow :=
  { Namespace := "ns", Name := "n", Created := 1, Updated := 2,
    CreatedBy := "u1", UpdatedBy := "u2" }

/-- Three rows in namespace `ns` labelled team a, team b, team a. -/
def c7Rows : StoreState :=
  [ { Namespace := "ns", Name := "s1", Labels := goJsonEncodePairs [("team", "a")] },
    { Namespace := "ns", Name := "s2", Labels := goJsonEncodePairs [("team", "b")] },
    { Namespace := "ns", Name := "s3", Labels := goJsonEncodePairs [("team", "a")] } ]

/-- The selector `team=a`. -/
def teamASel : List (String × String) → Bool :=
  fun m => m.any (fun kv => kv.1 == "team" && kv.2 == "a")

/-- The decode of `c5Row`. -/
def c5Obj : SecureValue :=
  { meta := { name := "n", nspace := "ns", creationTs := 1,
              createdBy := some "u1", updatedBy := some "u2",
              updatedTs := some 2, resourceVersion := some 2 } }

/-- A keeper whose encode always fails (a remote-keeper outage). -/
def failKeeper : SecretKeeper :=
  { encode := fun _ _ => .error (.other "keeper down")
    decode := fun _ _ => .error (.other "keeper down") }

/-- The row inserted by the second store variant's `Create`, in flattened
form. -/
def v2CreatedRow (envV2 : CreateEnvV2) (a : AuthInfo) (v : SecureValue) :
    secureValueRow :=
  { UID := envV2.newUID
    Namespace := v.meta.nspace
    Name := if v.meta.name = "" then envV2.nameUID else v.meta.name
    Title := v.spec.title
    Salt := envV2.saltUID
    Value := v.spec.value
    Created := envV2.now
    Updated := envV2.now
    CreatedBy := a.uid
    UpdatedBy := a.uid
    Labels := if v.meta.labels.isEmpty then ""
      else goJsonEncodePairs v.meta.labels
    APIs := if v.spec.apis.isEmpty then ""
      else goJsonEncodeStrList v.spec.apis
    Annots := if v.meta.annots.isEmpty then ""
      else goJsonEncodePairs v.meta.annots }

/-! ## The decoder accepts every encoder output -/

theorem strMk_data (s : String) : String.mk s.data = s := rfl

/-- The string-body parser undoes the escaper, stopping at the closing
quote. -/
theorem parseStrChars_esc (cs rest : List Char) :
    parseStrChars (escChars cs ++ '"' :: rest) = some (cs, rest) := by
  induction cs with
  | nil =>
    rw [show escChars [] = [] from rfl, List.nil_append, parseStrChars.eq_def]
    simp
  | cons c cs ih =>
    by_cases h : c = '"' ∨ c = '\\'
    · rw [show escChars (c :: cs) = '\\' :: c :: escChars cs from by
        simp [escChars, if_pos h]]
      rw [List.cons_append, List.cons_append, parseStrChars.eq_def]
      simp [ih]
    · have h1 : ¬ c = '"' := fun hc => h (Or.inl hc)
      have h2 : ¬ c = '\\' := fun hc => h (Or.inr hc)
      rw [show escChars (c :: cs) = c :: escChars cs from by
        simp [escChars, if_neg h]]
      rw [List.cons_append, parseStrChars.eq_def]
      simp [h1, h2, ih]

/-- The member parser undoes the member encoder. -/
theorem parsePairChars_enc (p : String × String) (rest : List Char) :
    parsePairChars (encPairChars p ++ rest) = some (p, rest) := by
  obtain ⟨k, v⟩ := p
  simp only [encPairChars, encStrChars, List.cons_append, List.append_assoc,
    List.nil_append]
  simp [parsePairChars, parseStrChars_esc, strMk_data]

/-- The member-list parser undoes the tail encoder, given fuel above the
number of members. -/
theorem parsePairsTailChars_enc (ps : List (String × String)) :
    ∀ (fuel : Nat) (rest : List Char), ps.length < fuel →
      parsePairsTailChars fuel (bodyTailChars ps ++ '}' :: rest) = some (ps, rest) := by
  induction ps with
  | nil =>
    intro fuel rest h
    match fuel, h with
    | fuel + 1, _ => simp [bodyTailChars, parsePairsTailChars]
  | cons p ps ih =>
    intro fuel rest h
    match fuel, h with
    | fuel + 1, h =>
      have h' : ps.length < fuel := by simpa using Nat.lt_of_succ_lt_succ h
      simp only [bodyTailChars, List.cons_append, List.append_assoc]
      simp [parsePairsTailChars, parsePairChars_enc, ih fuel rest h']

/-- The object parser undoes the object encoder, given fuel at least the
number of members. -/
theorem parseObjChars_enc (m : List (String × String)) (fuel : Nat)
    (h : m.length ≤ fuel) :
    parseObjChars fuel (encPairsChars m) = some (m, []) := by
  cases m with
  | nil => simp [encPairsChars, parseObjChars]
  | cons p ps =>
    have h' : ps.length < fuel := Nat.lt_of_lt_of_le (by simp) h
    obtain ⟨k, v⟩ := p
    simp only [encPairsChars, encPairChars, encStrChars, List.cons_append,
      List.append_assoc, List.nil_append]
    have hpair := parsePairChars_enc (k, v)
      (bodyTailChars ps ++ '}' :: ([] : List Char))
    simp only [encPairChars, encStrChars, List.cons_append, List.append_assoc,
      List.nil_append] at hpair
    have htail := parsePairsTailChars_enc ps fuel ([] : List Char) h'
    simp [parseObjChars, hpair, htail]

theorem length_bodyTailChars (ps : List (String × String)) :
    ps.length ≤ (bodyTailChars ps).length := by
  induction ps with
  | nil => simp [bodyTailChars]
  | cons p ps ih =>
    simp only [bodyTailChars, List.length_cons, List.length_append]
    omega

theorem length_encPairsChars (m : List (String × String)) :
    m.length < (encPairsChars m).length := by
  cases m with
  | nil => simp [encPairsChars]
  | cons p ps =>
    have := length_bodyTailChars ps
    simp only [encPairsChars, List.length_cons, List.length_append]
    omega

theorem length_insertByKey (p : String × String) (l : List (String × String)) :
    (insertByKey p l).length = l.length + 1 := by
  induction l with
  | nil => simp [insertByKey]
  | cons q rest ih =>
    by_cases h : strLeB p.1 q.1 <;> simp [insertByKey, h, ih]

theorem length_sortByKey (m : List (String × String)) :
    (sortByKey m).length = m.length := by
  induction m with
  | nil => simp [sortByKey]
  | cons p rest ih => simp [sortByKey, length_insertByKey, ih]

/-- Decoding an encoded map succeeds, returning the entries in sorted key
order. -/
theorem goJsonDecodePairs_enc (m : List (String × String)) :
    goJsonDecodePairs (goJsonEncodePairs m) = some (sortByKey m) := by
  have hlen : (String.mk (encPairsChars (sortByKey m))).length
      = (encPairsChars (sortByKey m)).length := rfl
  have hfuel : (sortByKey m).length ≤ (encPairsChars (sortByKey m)).length := by
    have h1 := length_encPairsChars (sortByKey m)
    omega
  unfold goJsonDecodePairs goJsonEncodePairs
  rw [hlen, show (String.mk (encPairsChars (sortByKey m))).data
      = encPairsChars (sortByKey m) from rfl,
    parseObjChars_enc _ _ hfuel]

/-- An encoded map is never the empty string. -/
theorem goJsonEncodePairs_ne_empty (m : List (String × String)) :
    goJsonEncodePairs m ≠ "" := by
  intro h
  have hdata := congrArg String.data h
  unfold goJsonEncodePairs at hdata
  cases hsort : sortByKey m <;> rw [hsort] at hdata <;> simp [encPairsChars] at hdata

/-- Decoding the encoded labels/annotations column yields the sorted
entries. -/
theorem decPairsField_enc (m : List (String × String)) :
    decPairsField (goJsonEncodePairs m) = .ok (sortByKey m) := by
  rw [decPairsField, if_neg (goJsonEncodePairs_ne_empty m), goJsonDecodePairs_enc]

/-- The array-tail parser undoes the tail encoder, given fuel above the
number of elements. -/
theorem parseArrTailChars_enc (ss : List String) :
    ∀ (fuel : Nat) (rest : List Char), ss.length < fuel →
      parseArrTailChars fuel (bodyTailStrs ss ++ ']' :: rest) = some (ss, rest) := by
  induction ss with
  | nil =>
    intro fuel rest h
    match fuel, h with
    | fuel + 1, _ => simp [bodyTailStrs, parseArrTailChars]
  | cons s ss ih =>
    intro fuel rest h
    match fuel, h with
    | fuel + 1, h =>
      have h' : ss.length < fuel := by simpa using Nat.lt_of_succ_lt_succ h
      simp only [bodyTailStrs, encStrChars, List.cons_append, List.append_assoc]
      simp [parseArrTailChars, parseStrChars_esc, strMk_data, ih fuel rest h']

/-- The array parser undoes the array encoder. -/
theorem parseArrChars_enc (l : List String) (fuel : Nat) (h : l.length ≤ fuel) :
    parseArrChars fuel (encArrChars l) = some (l, []) := by
  cases l with
  | nil => simp [encArrChars, parseArrChars]
  | cons s ss =>
    have h' : ss.length < fuel := Nat.lt_of_lt_of_le (by simp) h
    simp only [encArrChars, encStrChars, List.cons_append, List.append_assoc,
      List.nil_append]
    have htail := parseArrTailChars_enc ss fuel ([] : List Char) h'
    simp [parseArrChars, parseStrChars_esc, strMk_data, htail]

theorem length_bodyTailStrs (ss : List String) :
    ss.length ≤ (bodyTailStrs ss).length := by
  induction ss with
  | nil => simp [bodyTailStrs]
  | cons s ss ih =>
    simp only [bodyTailStrs, List.length_cons, List.length_append]
    omega

theorem length_encArrChars (l : List String) :
    l.length < (encArrChars l).length := by
  cases l with
  | nil => simp [encArrChars]
  | cons s ss =>
    have := length_bodyTailStrs ss
    simp only [encArrChars, List.length_cons, List.length_append]
    omega

/-- Decoding an encoded string list succeeds, returning the same list. -/
theorem goJsonDecodeStrList_enc (l : List String) :
    goJsonDecodeStrList (goJsonEncodeStrList l) = some l := by
  have hfuel : l.length ≤ (encArrChars l).length := le_of_lt (length_encArrChars l)
  unfold goJsonDecodeStrList goJsonEncodeStrList
  rw [show (String.mk (encArrChars l)).length = (encArrChars l).length from rfl,
    show (String.mk (encArrChars l)).data = encArrChars l from rfl,
    parseArrChars_enc _ _ hfuel]

/-- An encoded string list is never the empty string. -/
theorem goJsonEncodeStrList_ne_empty (l : List String) :
    goJsonEncodeStrList l ≠ "" := by
  intro h
  have hdata := congrArg String.data h
  unfold goJsonEncodeStrList at hdata
  cases l <;> simp [encArrChars] at hdata

/-- Decoding the encoded APIs column yields the same list. -/
theorem decListField_enc (l : List String) :
    decListField (goJsonEncodeStrList l) = .ok l := by
  rw [decListField, if_neg (goJsonEncodeStrList_ne_empty l), goJsonDecodeStrList_enc]

theorem decPairsField_empty : decPairsField "" = .ok [] := rfl

theorem decListField_empty : decListField "" = .ok [] := rfl

/-! ## Facts about the row codec and the store operations -/

/-- Forward evaluation of `toK8s` given the three column decodes. -/
theorem toK8s_eq (r : secureValueRow) (ap : List String)
    (an la : List (String × String))
    (hA : decListField r.APIs = .ok ap)
    (hAn : decPairsField r.Annots = .ok an)
    (hL : decPairsField r.Labels = .ok la) :
    r.toK8s = .ok
      { meta :=
          { name := r.Name
            nspace := r.Namespace
            uid := r.UID
            creationTs := r.Created
            labels := la
            annots := an
            createdBy := some r.CreatedBy
            updatedBy := if r.Updated ≠ r.Created then some r.UpdatedBy else none
            updatedTs := if r.Updated ≠ r.Created then some r.Updated else none
            resourceVersion := some r.Updated }
        spec := { title := r.Title, value := "", apis := ap } } := by
  unfold secureValueRow.toK8s
  rw [hA, hAn, hL]
  rfl

/-- Inversion of a successful `toK8s`: the object is fully determined by
the row and the three column decodes. -/
theorem toK8s_ok_inv (r : secureValueRow) (o : SecureValue)
    (h : r.toK8s = .ok o) :
    ∃ ap an la,
      decListField r.APIs = .ok ap ∧
      decPairsField r.Annots = .ok an ∧
      decPairsField r.Labels = .ok la ∧
      o = { meta :=
              { name := r.Name
                nspace := r.Namespace
                uid := r.UID
                creationTs := r.Created
                labels := la
                annots := an
                createdBy := some r.CreatedBy
                updatedBy := if r.Updated ≠ r.Created then some r.UpdatedBy else none
                updatedTs := if r.Updated ≠ r.Created then some r.Updated else none
                resourceVersion := some r.Updated }
            spec := { title := r.Title, value := "", apis := ap } } := by
  unfold secureValueRow.toK8s at h
  cases hA : decListField r.APIs with
  | error e =>
    rw [hA] at h; simp only [Bind.bind, Except.bind] at h; exact absurd h (by simp)
  | ok ap =>
    rw [hA] at h; simp only [Bind.bind, Except.bind] at h
    cases hAn : decPairsField r.Annots with
    | error e =>
      rw [hAn] at h; simp only [Bind.bind, Except.bind] at h; exact absurd h (by simp)
    | ok an =>
      rw [hAn] at h; simp only [Bind.bind, Except.bind] at h
      cases hL : decPairsField r.Labels with
      | error e =>
        rw [hL] at h; simp only [Bind.bind, Except.bind] at h; exact absurd h (by simp)
      | ok la =>
        rw [hL] at h; simp only [Bind.bind, Except.bind] at h
        exact ⟨ap, an, la, rfl, rfl, rfl, (Except.ok.inj h).symm⟩

/-- Looking a row up in a state that holds no row under its key, after
appending it, finds exactly that row. -/
theorem get_append_fresh (st : StoreState) (row : secureValueRow)
    (ns name : String)
    (hfresh : ∀ r ∈ st, ¬(r.Namespace = ns ∧ r.Name = name))
    (hns : row.Namespace = ns) (hname : row.Name = name) :
    secureStore.get (st ++ [row]) ns name = .ok row := by
  induction st with
  | nil => simp [secureStore.get, List.find?, hns, hname]
  | cons r st ih =>
    have hr : ¬(r.Namespace = ns ∧ r.Name = name) := hfresh r (by simp)
    have hrb : (r.Namespace == ns && r.Name == name) = false := by
      rw [Bool.and_eq_false_iff]
      by_cases h1 : r.Namespace = ns
      · exact Or.inr (beq_eq_false_iff_ne.mpr fun h2 => hr ⟨h1, h2⟩)
      · exact Or.inl (beq_eq_false_iff_ne.mpr h1)
    have ih' := ih (fun r hmem => hfresh r (List.mem_cons_of_mem _ hmem))
    simpa [secureStore.get, List.find?, hrb] using ih'

/-- Looking up a key held by no row of the state fails with not-found. -/
theorem get_absent (st : StoreState) (ns name : String)
    (hfresh : ∀ r ∈ st, ¬(r.Namespace = ns ∧ r.Name = name)) :
    secureStore.get st ns name = .error .notFound := by
  induction st with
  | nil => simp [secureStore.get, List.find?]
  | cons r st ih =>
    have hr : ¬(r.Namespace = ns ∧ r.Name = name) := hfresh r (by simp)
    have hrb : (r.Namespace == ns && r.Name == name) = false := by
      rw [Bool.and_eq_false_iff]
      by_cases h1 : r.Namespace = ns
      · exact Or.inr (beq_eq_false_iff_ne.mpr fun h2 => hr ⟨h1, h2⟩)
      · exact Or.inl (beq_eq_false_iff_ne.mpr h1)
    have ih' := ih (fun r hmem => hfresh r (List.mem_cons_of_mem _ hmem))
    simpa [secureStore.get, List.find?, hrb] using ih'

/-- The `List` scan loop is decode-all-then-filter. -/
theorem listLoop_eq (sel : List (String × String) → Bool)
    (rows : List secureValueRow) :
    secureStore.listLoop sel rows
      = (decodeRows rows).map
          (fun objs => objs.filter (fun o => sel o.meta.labels)) := by
  induction rows with
  | nil => simp [secureStore.listLoop, decodeRows, Except.map]
  | cons r rest ih =>
    cases hr : r.toK8s with
    | error e =>
      simp [secureStore.listLoop, decodeRows, hr, Bind.bind, Except.bind,
        Except.map]
    | ok obj =>
      cases hrest : decodeRows rest with
      | error e =>
        simp [secureStore.listLoop, decodeRows, hr, hrest, ih, Bind.bind,
          Except.bind, Except.map]
      | ok objs =>
        simp only [secureStore.listLoop, decodeRows, hr, hrest, ih, Bind.bind,
          Except.bind, Except.map, List.filter]
        by_cases hsel : sel obj.meta.labels <;> simp [hsel]

/-- Flattened form of the row codec. -/
theorem toSecureValueRow_eq (nu : String) (v : SecureValue) :
    toSecureValueRow nu v =
      { UID := nu
        Namespace := v.meta.nspace
        Name := v.meta.name
        Title := v.spec.title
        Value := v.spec.value
        Created := v.meta.creationTs
        CreatedBy := v.meta.createdBy.getD ""
        Updated := v.meta.updatedTs.getD v.meta.creationTs
        UpdatedBy := v.meta.updatedBy.getD ""
        Labels := if v.meta.labels.isEmpty then ""
          else goJsonEncodePairs v.meta.labels
        APIs := if v.spec.apis.isEmpty then ""
          else goJsonEncodeStrList v.spec.apis
        Annots := if v.meta.annots.isEmpty then ""
          else goJsonEncodePairs
            (v.meta.annots.filter (fun kv => !goHasPrefix "grafana.app/" kv.1)) } := by
  unfold toSecureValueRow
  by_cases h1 : v.meta.labels.isEmpty <;> by_cases h2 : v.spec.apis.isEmpty <;>
    by_cases h3 : v.meta.annots.isEmpty <;> simp [h1, h2, h3]

/-- Decoding a column that is either empty or an encoded map always
succeeds. -/
theorem decPairsField_ite (c : Prop) [Decidable c] (m : List (String × String)) :
    decPairsField (if c then "" else goJsonEncodePairs m)
      = .ok (if c then [] else sortByKey m) := by
  by_cases h : c <;> simp [h, decPairsField_empty, decPairsField_enc]

/-- Decoding a column that is either empty or an encoded list always
succeeds. -/
theorem decListField_ite (c : Prop) [Decidable c] (l : List String) :
    decListField (if c then "" else goJsonEncodeStrList l)
      = .ok (if c then [] else l) := by
  by_cases h : c <;> simp [h, decListField_empty, decListField_enc]

/-- A successful body run of `Create`: with the salt generated and the
keeper encode succeeding, the row is appended and its decode returned. -/
theorem createBody_ok (s : secureStore) (env : CreateEnv) (ctx : Ctx)
    (a : AuthInfo) (st : StoreState) (v : SecureValue) (salt ct : String)
    (hsalt : env.randSalt = .ok salt)
    (henc : s.keeper.encode ctx { value := v.spec.value, salt := salt } = .ok ct) :
    secureStore.createBody s env ctx a st v
      = ((createdRow env a salt ct v).toK8s,
         st ++ [createdRow env a salt ct v],
         { v with meta := { v.meta with creationTs := env.now } }) := by
  unfold secureStore.createBody createdRow
  rw [hsalt]
  simp only []
  rw [henc]

/-- Flattened form of the row inserted by a successful `Create`. -/
theorem createdRow_eq (env : CreateEnv) (a : AuthInfo) (salt ct : String)
    (v : SecureValue) :
    createdRow env a salt ct v =
      { UID := env.newUID
        Namespace := v.meta.nspace
        Name := v.meta.name
        Title := v.spec.title
        Value := ct
        Salt := salt
        Created := env.now
        CreatedBy := a.uid
        Updated := v.meta.updatedTs.getD env.now
        UpdatedBy := a.uid
        Labels := if v.meta.labels.isEmpty then ""
          else goJsonEncodePairs v.meta.labels
        APIs := if v.spec.apis.isEmpty then ""
          else goJsonEncodeStrList v.spec.apis
        Annots := if v.meta.annots.isEmpty then ""
          else goJsonEncodePairs
            (v.meta.annots.filter (fun kv => !goHasPrefix "grafana.app/" kv.1)) } := by
  unfold createdRow
  rw [toSecureValueRow_eq]

/-- All plain-text columns of the inserted row: never the keeper id or
address (the sampled `Create` leaves both empty). -/
theorem createdRow_keeper_addr (env : CreateEnv) (a : AuthInfo) (salt ct : String)
    (v : SecureValue) :
    (createdRow env a salt ct v).Keeper = "" ∧ (createdRow env a salt ct v).Addr = "" := by
  rw [createdRow_eq]
  exact ⟨rfl, rfl⟩

/-- The decode of the row inserted by a successful `Create`. -/
theorem createdRow_toK8s (env : CreateEnv) (a : AuthInfo) (salt ct : String)
    (v : SecureValue) :
    (createdRow env a salt ct v).toK8s = .ok
      { meta :=
          { name := v.meta.name
            nspace := v.meta.nspace
            uid := env.newUID
            creationTs := env.now
            labels := if v.meta.labels.isEmpty then [] else sortByKey v.meta.labels
            annots := if v.meta.annots.isEmpty then []
              else sortByKey
                (v.meta.annots.filter (fun kv => !goHasPrefix "grafana.app/" kv.1))
            createdBy := some a.uid
            updatedBy := if v.meta.updatedTs.getD env.now ≠ env.now
              then some a.uid else none
            updatedTs := if v.meta.updatedTs.getD env.now ≠ env.now
              then some (v.meta.updatedTs.getD env.now) else none
            resourceVersion := some (v.meta.updatedTs.getD env.now) }
        spec :=
          { title := v.spec.title
            value := ""
            apis := if v.spec.apis.isEmpty then [] else v.spec.apis } } := by
  rw [createdRow_eq]
  rw [toK8s_eq _ (if v.spec.apis.isEmpty then [] else v.spec.apis)
    (if v.meta.annots.isEmpty then []
      else sortByKey (v.meta.annots.filter (fun kv => !goHasPrefix "grafana.app/" kv.1)))
    (if v.meta.labels.isEmpty then [] else sortByKey v.meta.labels)
    (decListField_ite _ _) (decPairsField_ite _ _) (decPairsField_ite _ _)]

/-- Filtering with the always-true predicate keeps every element. -/
theorem filter_true_id {α : Type} (l : List α) : l.filter (fun _ => true) = l := by
  induction l with
  | nil => rfl
  | cons a l ih => simp [List.filter, ih]

/-- The row codec never reads the input object's UID. -/
theorem toSecureValueRow_uid_irrel (nu : String) (v : SecureValue) (u : String) :
    toSecureValueRow nu { v with meta := { v.meta with uid := u } }
      = toSecureValueRow nu v := by
  rw [toSecureValueRow_eq, toSecureValueRow_eq]

/-- The inserted row never depends on the input object's UID. -/
theorem createdRow_uid_irrel (env : CreateEnv) (a : AuthInfo) (salt ct : String)
    (v : SecureValue) (u : String) :
    createdRow env a salt ct { v with meta := { v.meta with uid := u } }
      = createdRow env a salt ct v := by
  rw [createdRow_eq, createdRow_eq]

/-- Past its validation, `Create` is its body. -/
theorem Create_guarded (s : secureStore) (env : CreateEnv) (ctx : Ctx)
    (st : StoreState) (v : SecureValue) (a : AuthInfo)
    (hauth : ctx.auth = some a) (hname : v.meta.name ≠ "")
    (hvalue : v.spec.value ≠ "") :
    secureStore.Create s env ctx st v = secureStore.createBody s env ctx a st v := by
  simp [secureStore.Create, hauth, hname, hvalue]

/-- A fully successful `Create`: the inserted row's decode is returned,
the row is appended, and the argument carries the stamped creation
time. -/
theorem Create_ok_eq (s : secureStore) (env : CreateEnv) (ctx : Ctx)
    (st : StoreState) (v : SecureValue) (a : AuthInfo) (salt ct : String)
    (hauth : ctx.auth = some a) (hname : v.meta.name ≠ "")
    (hvalue : v.spec.value ≠ "") (hsalt : env.randSalt = .ok salt)
    (henc : s.keeper.encode ctx { value := v.spec.value, salt := salt } = .ok ct) :
    secureStore.Create s env ctx st v
      = ((createdRow env a salt ct v).toK8s,
         st ++ [createdRow env a salt ct v],
         { v with meta := { v.meta with creationTs := env.now } }) := by
  rw [Create_guarded s env ctx st v a hauth hname hvalue,
    createBody_ok s env ctx a st v salt ct hsalt henc]

/-- Evaluation of `Decrypt` given the row, its decode and the keeper's
answer. -/
theorem Decrypt_eq (s : secureStore) (ctx : Ctx) (st : StoreState)
    (ns name : String) (row : secureValueRow) (o : SecureValue) (plain : String)
    (hget : secureStore.get st ns name = .ok row)
    (hk8s : row.toK8s = .ok o)
    (hdec : s.keeper.decode ctx
      { value := row.Value, salt := row.Salt, keeper := row.Keeper,
        addr := row.Addr } = .ok plain) :
    secureStore.Decrypt s ctx st ns name
      = .ok { o with spec := { o.spec with value := plain } } := by
  simp [secureStore.Decrypt, hget, hk8s, hdec, Bind.bind, Except.bind]

/-- Evaluation of `Read` given the row and its decode. -/
theorem Read_eq (st : StoreState) (ns name : String) (row : secureValueRow)
    (o : SecureValue) (hget : secureStore.get st ns name = .ok row)
    (hk8s : row.toK8s = .ok o) :
    secureStore.Read st ns name = .ok o := by
  simp [secureStore.Read, hget, hk8s, Bind.bind, Except.bind]

/-- The second variant's `Create`, past its authentication check, inserts
the flattened row and returns its decode. -/
theorem secureStoreV2Create_eq (s : secureStore) (envV2 : CreateEnvV2)
    (ctx : Ctx) (st : StoreState) (v : SecureValue) (a : AuthInfo)
    (hauth : ctx.auth = some a) :
    secureStoreV2Create s envV2 ctx st v
      = ((v2CreatedRow envV2 a v).toK8s, st ++ [v2CreatedRow envV2 a v]) := by
  unfold secureStoreV2Create v2CreatedRow
  rw [hauth]
  by_cases h0 : v.meta.name = "" <;> by_cases h1 : v.meta.labels.isEmpty <;>
    by_cases h2 : v.spec.apis.isEmpty <;> by_cases h3 : v.meta.annots.isEmpty <;>
    simp [h0, h1, h2, h3]

/-- The second variant's row never depends on the input object's UID. -/
theorem v2CreatedRow_uid_irrel (envV2 : CreateEnvV2) (a : AuthInfo)
    (v : SecureValue) (u : String) :
    v2CreatedRow envV2 a { v with meta := { v.meta with uid := u } }
      = v2CreatedRow envV2 a v := rfl

/-- Shape of every `Create` outcome: either an early error leaving the
state untouched, or a successful insert of the built row. -/
theorem Create_cases (s : secureStore) (env : CreateEnv) (ctx : Ctx)
    (st : StoreState) (v : SecureValue) :
    (∃ e x, secureStore.Create s env ctx st v = (.error e, st, x)) ∨
    (∃ a salt ct, ctx.auth = some a ∧
      secureStore.Create s env ctx st v
        = ((createdRow env a salt ct v).toK8s,
           st ++ [createdRow env a salt ct v],
           { v with meta := { v.meta with creationTs := env.now } })) := by
  cases hctx : ctx.auth with
  | none => exact Or.inl ⟨.missingAuth, v, by simp [secureStore.Create, hctx]⟩
  | some a =>
    by_cases hn : v.meta.name = ""
    · exact Or.inl ⟨.missingName, v, by simp [secureStore.Create, hctx, hn]⟩
    · by_cases hval : v.spec.value = ""
      · exact Or.inl ⟨.missingValue, v, by simp [secureStore.Create, hctx, hn, hval]⟩
      · cases hs : env.randSalt with
        | error e =>
          refine Or.inl ⟨e, { v with meta := { v.meta with creationTs := env.now } }, ?_⟩
          rw [Create_guarded s env ctx st v a hctx hn hval]
          unfold secureStore.createBody
          rw [hs]
        | ok salt =>
          cases he : s.keeper.encode ctx { value := v.spec.value, salt := salt } with
          | error e =>
            refine Or.inl ⟨e, { v with meta := { v.meta with creationTs := env.now } }, ?_⟩
            rw [Create_guarded s env ctx st v a hctx hn hval]
            unfold secureStore.createBody
            rw [hs]
            simp only []
            rw [he]
          | ok ct =>
            exact Or.inr ⟨a, salt, ct, rfl,
              Create_ok_eq s env ctx st v a salt ct hctx hn hval hs he⟩

/-- Every row `Create` adds to the state carries the generated UUID. -/
theorem Create_new_rows_uid (s : secureStore) (env : CreateEnv) (ctx : Ctx)
    (st : StoreState) (v : SecureValue) (r : secureValueRow)
    (hmem : r ∈ (secureStore.Create s env ctx st v).2.1) (hnot : r ∉ st) :
    r.UID = env.newUID := by
  rcases Create_cases s env ctx st v with ⟨e, x, h⟩ | ⟨a, salt, ct, _, h⟩
  · rw [h] at hmem; exact absurd hmem hnot
  · rw [h] at hmem
    rcases List.mem_append.mp hmem with hm | hm
    · exact absurd hm hnot
    · rw [List.mem_singleton.mp hm, createdRow_eq]

/-- Every object `Create` returns carries the generated UUID. -/
theorem Create_ok_uid (s : secureStore) (env : CreateEnv) (ctx : Ctx)
    (st : StoreState) (v : SecureValue) (o : SecureValue)
    (hok : (secureStore.Create s env ctx st v).1 = .ok o) :
    o.meta.uid = env.newUID := by
  rcases Create_cases s env ctx st v with ⟨e, x, h⟩ | ⟨a, salt, ct, _, h⟩
  · rw [h] at hok; exact absurd hok (by simp)
  · rw [h] at hok
    obtain ⟨ap, an, la, _, _, _, rfl⟩ := toK8s_ok_inv _ _ hok
    rw [createdRow_eq]

/-- The result and resulting state of `Create` ignore the caller-supplied
UID. -/
theorem Create_input_uid_irrel (s : secureStore) (env : CreateEnv) (ctx : Ctx)
    (st : StoreState) (v : SecureValue) (u : String) :
    (secureStore.Create s env ctx st { v with meta := { v.meta with uid := u } }).1
      = (secureStore.Create s env ctx st v).1 ∧
    (secureStore.Create s env ctx st { v with meta := { v.meta with uid := u } }).2.1
      = (secureStore.Create s env ctx st v).2.1 := by
  cases hctx : ctx.auth with
  | none => constructor <;> simp [secureStore.Create, hctx]
  | some a =>
    by_cases hn : v.meta.name = ""
    · constructor <;> simp [secureStore.Create, hctx, hn]
    · by_cases hval : v.spec.value = ""
      · constructor <;> simp [secureStore.Create, hctx, hn, hval]
      · cases hs : env.randSalt with
        | error e =>
          constructor <;>
            simp [secureStore.Create, secureStore.createBody, hctx, hn, hval, hs]
        | ok salt =>
          cases he : s.keeper.encode ctx { value := v.spec.value, salt := salt } with
          | error e =>
            constructor <;>
              simp [secureStore.Create, secureStore.createBody, hctx, hn, hval,
                hs, he]
          | ok ct =>
            have h1 := Create_ok_eq s env ctx st v a salt ct hctx hn hval hs he
            have h2 := Create_ok_eq s env ctx st
              { v with meta := { v.meta with uid := u } } a salt ct hctx
              (by simpa using hn) (by simpa using hval) hs he
            rw [h1, h2, createdRow_uid_irrel]
            exact ⟨rfl, rfl⟩

/-- Shape of every outcome of the second variant's `Create`. -/
theorem V2Create_cases (s : secureStore) (envV2 : CreateEnvV2) (ctx : Ctx)
    (st : StoreState) (v : SecureValue) :
    (secureStoreV2Create s envV2 ctx st v = (.error .missingAuth, st)) ∨
    (∃ a, ctx.auth = some a ∧
      secureStoreV2Create s envV2 ctx st v
        = ((v2CreatedRow envV2 a v).toK8s, st ++ [v2CreatedRow envV2 a v])) := by
  cases hctx : ctx.auth with
  | none => exact Or.inl (by simp [secureStoreV2Create, hctx])
  | some a => exact Or.inr ⟨a, rfl, secureStoreV2Create_eq s envV2 ctx st v a hctx⟩

/-- Every row the second variant's `Create` adds carries the generated
UUID. -/
theorem V2Create_new_rows_uid (s : secureStore) (envV2 : CreateEnvV2) (ctx : Ctx)
    (st : StoreState) (v : SecureValue) (r : secureValueRow)
    (hmem : r ∈ (secureStoreV2Create s envV2 ctx st v).2) (hnot : r ∉ st) :
    r.UID = envV2.newUID := by
  rcases V2Create_cases s envV2 ctx st v with h | ⟨a, _, h⟩
  · rw [h] at hmem; exact absurd hmem hnot
  · rw [h] at hmem
    rcases List.mem_append.mp hmem with hm | hm
    · exact absurd hm hnot
    · rw [List.mem_singleton.mp hm]; rfl

/-- Every object the second variant's `Create` returns carries the
generated UUID. -/
theorem V2Create_ok_uid (s : secureStore) (envV2 : CreateEnvV2) (ctx : Ctx)
    (st : StoreState) (v : SecureValue) (o : SecureValue)
    (hok : (secureStoreV2Create s envV2 ctx st v).1 = .ok o) :
    o.meta.uid = envV2.newUID := by
  rcases V2Create_cases s envV2 ctx st v with h | ⟨a, _, h⟩
  · rw [h] at hok; exact absurd hok (by simp)
  · rw [h] at hok
    obtain ⟨ap, an, la, _, _, _, rfl⟩ := toK8s_ok_inv _ _ hok
    rfl

/-- The second variant's `Create` ignores the caller-supplied UID. -/
theorem V2Create_input_uid_irrel (s : secureStore) (envV2 : CreateEnvV2)
    (ctx : Ctx) (st : StoreState) (v : SecureValue) (u : String) :
    secureStoreV2Create s envV2 ctx st { v with meta := { v.meta with uid := u } }
      = secureStoreV2Create s envV2 ctx st v := by
  cases hctx : ctx.auth with
  | none => simp [secureStoreV2Create, hctx]
  | some a =>
    rw [secureStoreV2Create_eq s envV2 ctx st _ a hctx,
      secureStoreV2Create_eq s envV2 ctx st v a hctx, v2CreatedRow_uid_irrel]

/-! ## The claims -/

/-- **C1** — The codec round trip does *not* strip reserved-prefix
annotation keys and does *not* preserve all non-reserved keys: the source
condition `strings.HasPrefix("grafana.app/", k)` has its arguments
swapped, so it drops a key exactly when the key is a *prefix of* the
reserved string.  On an input carrying the non-reserved key `g` and the
reserved key `grafana.app/token`, the decoded row keeps the reserved key
and loses `g`. -/
theorem c1_annotation_roundtrip_eval :
    goHasPrefix "g" "grafana.app/" = false ∧
    goHasPrefix "grafana.app/token" "grafana.app/" = true ∧
    c1Input.meta.annots = [("g", "x"), ("grafana.app/token", "y")] ∧
    ((toSecureValueRow "u1" c1Input).toK8s).map (fun o => o.meta.annots)
      = .ok [("grafana.app/token", "y")] := by
  decide

/-- **C2** — Decrypt performs no authorized-APIs membership check: with a
stored row whose authorized list is exactly `["appA"]`, a caller
authenticated as `appB` (not in the list) still receives the plaintext. -/
theorem c2_decrypt_skips_authorization_eval :
    goJsonDecodeStrList c2Row.APIs = some ["appA"] ∧
    ctxB.auth = some { uid := "appB" } ∧
    ("appB" ∈ (["appA"] : List String) → False) ∧
    (secureStore.Decrypt { keeper := testKeeper } ctxB [c2Row] "ns" "n").map
        (fun o => o.spec.value) = .ok "top-secret" := by
  decide

/-- **C4** — Create validation: with no identity in the context it fails
with the `Unauthenticated`-class error; with an identity but an empty name
or an empty plaintext value it fails with the `InvalidArgument`-class
errors; with an identity, a non-empty name and a non-empty value all
validation checks pass and Create proceeds to its post-validation body. -/
theorem c4_create_validation (s : secureStore) (env : CreateEnv) (ctx : Ctx)
    (st : StoreState) (v : SecureValue) :
    (ctx.auth = none →
      secureStore.Create s env ctx st v = (.error .missingAuth, st, v)) ∧
    (∀ a, ctx.auth = some a → v.meta.name = "" →
      secureStore.Create s env ctx st v = (.error .missingName, st, v)) ∧
    (∀ a, ctx.auth = some a → v.meta.name ≠ "" → v.spec.value = "" →
      secureStore.Create s env ctx st v = (.error .missingValue, st, v)) ∧
    (∀ a, ctx.auth = some a → v.meta.name ≠ "" → v.spec.value ≠ "" →
      secureStore.Create s env ctx st v = secureStore.createBody s env ctx a st v) := by
  refine ⟨fun h => ?_, fun a ha hn => ?_, fun a ha hn hv => ?_, fun a ha hn hv => ?_⟩ <;>
    simp [secureStore.Create, *]

/-- Witness for C4 at concrete inputs: each validation outcome is
realized. -/
theorem c4_create_validation_witness :
    secureStore.Create { keeper := testKeeper } envOk { auth := none } [] c3Value
      = (.error .missingAuth, [], c3Value) ∧
    secureStore.Create { keeper := testKeeper } envOk ctxA []
        ({ spec := { value := "x" } } : SecureValue)
      = (.error .missingName, [], ({ spec := { value := "x" } } : SecureValue)) ∧
    secureStore.Create { keeper := testKeeper } envOk ctxA []
        ({ meta := { name := "n" } } : SecureValue)
      = (.error .missingValue, [], ({ meta := { name := "n" } } : SecureValue)) ∧
    secureStore.Create { keeper := testKeeper } envOk ctxA [] c3Value
      = secureStore.createBody { keeper := testKeeper } envOk ctxA
          { uid := "appA" } [] c3Value := by
  refine ⟨?_, ?_, ?_, ?_⟩
  · exact (c4_create_validation _ _ _ _ _).1 rfl
  · exact (c4_create_validation _ _ _ _ _).2.1 _ rfl rfl
  · exact (c4_create_validation _ _ _ _ _).2.2.1 _ rfl (by decide) rfl
  · exact (c4_create_validation _ _ _ _ _).2.2.2 _ rfl (by decide) (by decide)

/-- **C5** — Metadata of a decoded row: the resource version always equals
the row's update time (already in milliseconds), created-by is always set
from the row, and updated-by together with the update timestamp are set
exactly when the row's update time differs from its creation time. -/
theorem c5_resource_version_metadata (r : secureValueRow) (o : SecureValue)
    (h : r.toK8s = .ok o) :
    o.meta.resourceVersion = some r.Updated ∧
    o.meta.createdBy = some r.CreatedBy ∧
    ((o.meta.updatedBy = some r.UpdatedBy ∧ o.meta.updatedTs = some r.Updated)
      ↔ r.Updated ≠ r.Created) := by
  obtain ⟨ap, an, la, hA, hAn, hL, rfl⟩ := toK8s_ok_inv r o h
  refine ⟨rfl, rfl, ?_⟩
  by_cases hne : r.Updated = r.Created <;> simp [hne]

/-- Witness for C5 on a concrete row with distinct creation and update
times. -/
theorem c5_resource_version_metadata_witness :
    c5Row.toK8s = .ok c5Obj ∧
    (c5Obj.meta.resourceVersion = some 2 ∧
     c5Obj.meta.createdBy = some "u1" ∧
     ((c5Obj.meta.updatedBy = some "u2" ∧ c5Obj.meta.updatedTs = some 2)
       ↔ (2 : Int) ≠ 1)) :=
  ⟨by decide, c5_resource_version_metadata c5Row c5Obj (by decide)⟩

/-- **C6** counterexample — Delete on a nonexistent (namespace, name) does
not fail with NotFound: the sampled Delete panics unconditionally. -/
theorem c6_delete_counterexample :
    (secureStore.Delete [] "ns" "missing").1 ≠ GoOutcome.err GoErr.notFound ∧
    (secureStore.Delete [] "ns" "missing").1 = GoOutcome.panicked "unimplemented" := by
  decide

/-- **C6** amended — Read and Decrypt on a (namespace, name) held by no
row fail with NotFound; Delete is unimplemented and panics
unconditionally. -/
theorem c6_notfound_read_decrypt (s : secureStore) (ctx : Ctx) (st : StoreState)
    (ns name : String)
    (habsent : ∀ r ∈ st, ¬(r.Namespace = ns ∧ r.Name = name)) :
    secureStore.Read st ns name = .error .notFound ∧
    secureStore.Decrypt s ctx st ns name = .error .notFound ∧
    (secureStore.Delete st ns name).1 = .panicked "unimplemented" := by
  have hget := get_absent st ns name habsent
  refine ⟨?_, ?_, rfl⟩
  · simp [secureStore.Read, hget, Bind.bind, Except.bind]
  · simp [secureStore.Decrypt, hget, Bind.bind, Except.bind]

/-- Witness for the amended C6 on the empty store. -/
theorem c6_notfound_read_decrypt_witness :
    secureStore.Read [] "ns" "missing" = .error .notFound ∧
    secureStore.Decrypt { keeper := testKeeper } ctxB [] "ns" "missing"
      = .error .notFound ∧
    (secureStore.Delete ([] : StoreState) "ns" "missing").1
      = .panicked "unimplemented" :=
  c6_notfound_read_decrypt { keeper := testKeeper } ctxB [] "ns" "missing" (by simp)

/-- **C7** — List is decode-then-filter over the namespace's rows in
storage order: the result equals decoding every fetched row and keeping
exactly the objects whose decoded labels match the selector; a nil
selector keeps everything. -/
theorem c7_list_filtering (st : StoreState) (ns : String) (options : ListOptions) :
    secureStore.List st ns options
      = (decodeRows (rowsForNamespace st ns)).map
          (fun objs => objs.filter
            (fun o => (options.labelSelector.getD matchEverything) o.meta.labels)) ∧
    (options.labelSelector = none →
      secureStore.List st ns options = decodeRows (rowsForNamespace st ns)) := by
  constructor
  · unfold secureStore.List
    exact listLoop_eq _ _
  · intro hnone
    unfold secureStore.List
    rw [hnone, listLoop_eq]
    cases h : decodeRows (rowsForNamespace st ns) with
    | error e => simp [Except.map]
    | ok objs => simp [Except.map, matchEverything, filter_true_id]

/-- Witness for C7: the nil-selector case on the three-row fixture, and
the spec's own example — selector `team=a` returns exactly the first and
third objects, in storage order. -/
theorem c7_list_filtering_witness :
    secureStore.List c7Rows "ns" { labelSelector := none }
      = decodeRows (rowsForNamespace c7Rows "ns") ∧
    (secureStore.List c7Rows "ns" { labelSelector := some teamASel }).map
        (fun objs => objs.map (fun o => o.meta.name)) = .ok ["s1", "s3"] :=
  ⟨(c7_list_filtering c7Rows "ns" { labelSelector := none }).2 rfl, by decide⟩

/-- **C3** — Write-only value: after a successful `Create` of an object
with a non-empty name and plaintext value, the returned object's value is
empty, `Read` on the new pair returns an object with an empty value, and
`Decrypt` on it returns exactly the plaintext (recovered via the keeper's
decode with the stored salt, keeper id and address — both left empty by
the sampled `Create`). -/
theorem c3_write_only_value (s : secureStore) (env : CreateEnv) (ctx : Ctx)
    (st : StoreState) (v : SecureValue) (a : AuthInfo) (salt ct : String)
    (hauth : ctx.auth = some a)
    (hname : v.meta.name ≠ "")
    (hvalue : v.spec.value ≠ "")
    (hsalt : env.randSalt = .ok salt)
    (henc : s.keeper.encode ctx { value := v.spec.value, salt := salt } = .ok ct)
    (hdec : s.keeper.decode ctx { value := ct, salt := salt } = .ok v.spec.value)
    (hfresh : ∀ r ∈ st, ¬(r.Namespace = v.meta.nspace ∧ r.Name = v.meta.name)) :
    (∃ o, (secureStore.Create s env ctx st v).1 = .ok o ∧ o.spec.value = "") ∧
    (∃ o, secureStore.Read (secureStore.Create s env ctx st v).2.1
        v.meta.nspace v.meta.name = .ok o ∧ o.spec.value = "") ∧
    (∃ o, secureStore.Decrypt s ctx (secureStore.Create s env ctx st v).2.1
        v.meta.nspace v.meta.name = .ok o ∧ o.spec.value = v.spec.value) := by
  rw [Create_ok_eq s env ctx st v a salt ct hauth hname hvalue hsalt henc]
  have hk8s := createdRow_toK8s env a salt ct v
  have hns : (createdRow env a salt ct v).Namespace = v.meta.nspace := by
    rw [createdRow_eq]
  have hnm : (createdRow env a salt ct v).Name = v.meta.name := by
    rw [createdRow_eq]
  have hget := get_append_fresh st (createdRow env a salt ct v)
    v.meta.nspace v.meta.name hfresh hns hnm
  have hdec' : s.keeper.decode ctx
      { value := (createdRow env a salt ct v).Value
        salt := (createdRow env a salt ct v).Salt
        keeper := (createdRow env a salt ct v).Keeper
        addr := (createdRow env a salt ct v).Addr } = .ok v.spec.value := by
    rw [createdRow_eq]; exact hdec
  have hdecr := Decrypt_eq s ctx _ v.meta.nspace v.meta.name _ _
    v.spec.value hget hk8s hdec'
  exact ⟨⟨_, hk8s, rfl⟩, ⟨_, Read_eq _ _ _ _ _ hget hk8s, rfl⟩, ⟨_, hdecr, rfl⟩⟩

/-- Witness for C3: creating `db-pass` with value `s3cr3t` through the
concrete keeper, then reading and decrypting it. -/
theorem c3_write_only_value_witness :
    testKeeper.encode ctxA { value := "s3cr3t", salt := "r" } = .ok "r|s3cr3t" ∧
    testKeeper.decode ctxA { value := "r|s3cr3t", salt := "r" } = .ok "s3cr3t" ∧
    ((∃ o, (secureStore.Create { keeper := testKeeper } envOk ctxA [] c3Value).1
        = .ok o ∧ o.spec.value = "") ∧
     (∃ o, secureStore.Read
          (secureStore.Create { keeper := testKeeper } envOk ctxA [] c3Value).2.1
          "ns" "db-pass" = .ok o ∧ o.spec.value = "") ∧
     (∃ o, secureStore.Decrypt { keeper := testKeeper } ctxA
          (secureStore.Create { keeper := testKeeper } envOk ctxA [] c3Value).2.1
          "ns" "db-pass" = .ok o ∧ o.spec.value = "s3cr3t")) :=
  ⟨by decide, by decide,
   c3_write_only_value { keeper := testKeeper } envOk ctxA [] c3Value
     { uid := "appA" } "r" "r|s3cr3t" rfl (by decide) (by decide) rfl
     (by decide) (by decide) (by simp)⟩

/-- **C8** — Encode-then-insert: past validation, if salt generation or
the keeper's encode fails, `Create` returns that error and the store state
is exactly the input state — no row was inserted. -/
theorem c8_encode_before_insert (s : secureStore) (env : CreateEnv) (ctx : Ctx)
    (st : StoreState) (v : SecureValue) (a : AuthInfo)
    (hauth : ctx.auth = some a) (hname : v.meta.name ≠ "")
    (hvalue : v.spec.value ≠ "") :
    (∀ e, env.randSalt = .error e →
      secureStore.Create s env ctx st v
        = (.error e, st, { v with meta := { v.meta with creationTs := env.now } })) ∧
    (∀ salt e, env.randSalt = .ok salt →
      s.keeper.encode ctx { value := v.spec.value, salt := salt } = .error e →
      secureStore.Create s env ctx st v
        = (.error e, st, { v with meta := { v.meta with creationTs := env.now } })) := by
  constructor
  · intro e he
    rw [Create_guarded s env ctx st v a hauth hname hvalue]
    unfold secureStore.createBody
    rw [he]
  · intro salt e hs henc
    rw [Create_guarded s env ctx st v a hauth hname hvalue]
    unfold secureStore.createBody
    rw [hs]
    simp only []
    rw [henc]

/-- Witness for C8: a failing salt generator and a failing keeper each
leave the store unchanged and surface their error. -/
theorem c8_encode_before_insert_witness :
    secureStore.Create { keeper := testKeeper } envBadSalt ctxA [] c3Value
      = (.error (.other "rng failure"), [],
         { c3Value with meta := { c3Value.meta with creationTs := 5 } }) ∧
    secureStore.Create { keeper := failKeeper } envOk ctxA [] c3Value
      = (.error (.other "keeper down"), [],
         { c3Value with meta := { c3Value.meta with creationTs := 5 } }) :=
  ⟨(c8_encode_before_insert { keeper := testKeeper } envBadSalt ctxA [] c3Value
      { uid := "appA" } rfl (by decide) (by decide)).1 _ rfl,
   (c8_encode_before_insert { keeper := failKeeper } envOk ctxA [] c3Value
      { uid := "appA" } rfl (by decide) (by decide)).2 "r" _ rfl rfl⟩

/-- **C9** — The UID is system-chosen in both sampled `Create` variants:
the result value and resulting store state never depend on the UID of the
caller-supplied object, every newly persisted row carries the generated
UUID as its UID, and so does every returned object. -/
theorem c9_uid_system_chosen (s : secureStore) (env : CreateEnv)
    (envV2 : CreateEnvV2) (ctx : Ctx) (st : StoreState) (v : SecureValue)
    (u : String) :
    ((secureStore.Create s env ctx st
        { v with meta := { v.meta with uid := u } }).1
      = (secureStore.Create s env ctx st v).1 ∧
     (secureStore.Create s env ctx st
        { v with meta := { v.meta with uid := u } }).2.1
      = (secureStore.Create s env ctx st v).2.1) ∧
    (∀ r, r ∈ (secureStore.Create s env ctx st v).2.1 → r ∉ st →
      r.UID = env.newUID) ∧
    (∀ o, (secureStore.Create s env ctx st v).1 = .ok o →
      o.meta.uid = env.newUID) ∧
    (secureStoreV2Create s envV2 ctx st { v with meta := { v.meta with uid := u } }
      = secureStoreV2Create s envV2 ctx st v) ∧
    (∀ r, r ∈ (secureStoreV2Create s envV2 ctx st v).2 → r ∉ st →
      r.UID = envV2.newUID) ∧
    (∀ o, (secureStoreV2Create s envV2 ctx st v).1 = .ok o →
      o.meta.uid = envV2.newUID) :=
  ⟨Create_input_uid_irrel s env ctx st v u,
   fun r => Create_new_rows_uid s env ctx st v r,
   fun o => Create_ok_uid s env ctx st v o,
   V2Create_input_uid_irrel s envV2 ctx st v u,
   fun r => V2Create_new_rows_uid s envV2 ctx st v r,
   fun o => V2Create_ok_uid s envV2 ctx st v o⟩

/-- Witness for C9 at concrete inputs: a caller-supplied UID is ignored
and the generated UUID is the one persisted and returned. -/
theorem c9_uid_system_chosen_witness :
    ((secureStore.Create { keeper := testKeeper } envOk ctxA []
        { c3Value with meta := { c3Value.meta with uid := "caller-uid" } }).1
      = (secureStore.Create { keeper := testKeeper } envOk ctxA [] c3Value).1 ∧
     (secureStore.Create { keeper := testKeeper } envOk ctxA []
        { c3Value with meta := { c3Value.meta with uid := "caller-uid" } }).2.1
      = (secureStore.Create { keeper := testKeeper } envOk ctxA [] c3Value).2.1) ∧
    (∀ r, r ∈ (secureStore.Create { keeper := testKeeper } envOk ctxA []
        c3Value).2.1 → r ∉ ([] : StoreState) → r.UID = "uid-1") ∧
    (∀ o, (secureStore.Create { keeper := testKeeper } envOk ctxA [] c3Value).1
      = .ok o → o.meta.uid = "uid-1") ∧
    (secureStoreV2Create { keeper := testKeeper }
        { newUID := "uid-2", now := 7, saltUID := "s", nameUID := "gen" } ctxA []
        { c3Value with meta := { c3Value.meta with uid := "caller-uid" } }
      = secureStoreV2Create { keeper := testKeeper }
          { newUID := "uid-2", now := 7, saltUID := "s", nameUID := "gen" } ctxA []
          c3Value) ∧
    (∀ r, r ∈ (secureStoreV2Create { keeper := testKeeper }
        { newUID := "uid-2", now := 7, saltUID := "s", nameUID := "gen" } ctxA []
        c3Value).2 → r ∉ ([] : StoreState) → r.UID = "uid-2") ∧
    (∀ o, (secureStoreV2Create { keeper := testKeeper }
        { newUID := "uid-2", now := 7, saltUID := "s", nameUID := "gen" } ctxA []
        c3Value).1 = .ok o → o.meta.uid = "uid-2") :=
  c9_uid_system_chosen { keeper := testKeeper } envOk
    { newUID := "uid-2", now := 7, saltUID := "s", nameUID := "gen" } ctxA []
    c3Value "caller-uid"

/-- **C10** — On the validated path, `Create` overwrites exactly the
caller object's creation timestamp with the current time: the argument's
final state is the input object with only that field replaced. -/
theorem c10_create_mutates_creation_timestamp (s : secureStore) (env : CreateEnv)
    (ctx : Ctx) (st : StoreState) (v : SecureValue) (a : AuthInfo)
    (hauth : ctx.auth = some a) (hname : v.meta.name ≠ "")
    (hvalue : v.spec.value ≠ "") :
    (secureStore.Create s env ctx st v).2.2
      = { v with meta := { v.meta with creationTs := env.now } } := by
  rw [Create_guarded s env ctx st v a hauth hname hvalue]
  unfold secureStore.createBody
  cases hs : env.randSalt with
  | error e => rfl
  | ok salt =>
    simp only []
    cases he : s.keeper.encode ctx { value := v.spec.value, salt := salt } with
    | error e => rfl
    | ok ct => rfl

/-- Witness for C10 at a concrete input. -/
theorem c10_create_mutates_creation_timestamp_witness :
    (secureStore.Create { keeper := testKeeper } envOk ctxA [] c3Value).2.2
      = { c3Value with meta := { c3Value.meta with creationTs := 5 } } :=
  c10_create_mutates_creation_timestamp { keeper := testKeeper } envOk ctxA []
    c3Value { uid := "appA" } rfl (by decide) (by decide)

end GrafanaSecret
